import Mathlib

/-!
# Verification of the md-pub rendering engine (`.render/render.js`)

A shallow embedding of the path-mapping, reference-rewriting, navigation
and frontmatter logic of `render.js`.  JavaScript strings are modelled as
`List Char` (`JStr`); filesystem paths are modelled as lists of path
segments (`List Seg`), mirroring Node's POSIX `path` module semantics.
All definitions are executable; fallible operations (such as `decodeURI`,
which throws a `URIError` on malformed percent-escapes) return `Option`.
-/

/-- A JavaScript string, modelled as its list of characters. -/
abbrev JStr := List Char

/-- One path segment (the text between two `/` separators). -/
abbrev Seg := List Char

/-- Shorthand turning a Lean string literal into a `JStr`. -/
def sg (s : String) : JStr := s.toList

/-- ASCII lowercasing of one character, modelling the effect of the `/i`
regex flag on the ASCII patterns used in `render.js`. -/
def lowerChar (c : Char) : Char :=
  if 'A' ≤ c ∧ c ≤ 'Z' then Char.ofNat (c.toNat + 32) else c

/-- ASCII lowercasing of a string. -/
def lowerStr (s : JStr) : JStr := s.map lowerChar

/-- Case-insensitive "ends with": models regexes of the form `/pat$/i`. -/
def endsWithCI (s suf : JStr) : Bool := (lowerStr suf).isSuffixOf (lowerStr s)

/-- Case-insensitive string equality. -/
def eqCI (a b : JStr) : Bool := decide (lowerStr a = lowerStr b)

/-- Case-insensitive "starts with": models regexes of the form `/^pat/i`. -/
def startsWithCI (s pre : JStr) : Bool := (lowerStr pre).isPrefixOf (lowerStr s)

/-- Drop the last `n` characters of a string (models `str.replace(/suf$/,"")`
once the suffix is known to be present). -/
def dropRightN (s : JStr) (n : Nat) : JStr := s.take (s.length - n)

/-- Split a string at the first occurrence of `c`; the second component
keeps `c` itself (models `url.indexOf(c)` followed by the two `slice`s in
`processAttr`); when `c` is absent the second component is empty. -/
def splitFirstKeep (c : Char) : JStr → JStr × JStr
  | [] => ([], [])
  | x :: xs =>
    if x = c then ([], x :: xs)
    else
      let p := splitFirstKeep c xs
      (x :: p.1, p.2)

/-- Split a string on `/` into its segments (as `"a/b".split("/")` would,
keeping empty segments). -/
def splitSlash : JStr → List Seg
  | [] => [[]]
  | c :: r =>
    let rest := splitSlash r
    if c = '/' then [] :: rest
    else
      match rest with
      | s :: t => (c :: s) :: t
      | [] => [[c]]

/-- Join segments with `/` (the inverse direction of `splitSlash`; models
`path.relative`'s textual output and `.split(path.sep).join("/")`). -/
def joinSlash : List Seg → JStr
  | [] => []
  | [x] => x
  | x :: xs => x ++ '/' :: joinSlash xs

/-- The `.` path segment. -/
def dotSeg : Seg := ['.']

/-- The `..` path segment. -/
def dotdotSeg : Seg := ['.', '.']

/-- A segment that survives path normalization unchanged. -/
def normalSeg (s : Seg) : Prop := s ≠ [] ∧ s ≠ dotSeg ∧ s ≠ dotdotSeg

instance (s : Seg) : Decidable (normalSeg s) := by
  unfold normalSeg; infer_instance

/-- Worker for absolute-path normalization: drops empty and `.` segments,
pops on `..` (dropping excess `..` at the root, as POSIX
`path.normalize` does for absolute paths). -/
def normAbsGo (acc : List Seg) : List Seg → List Seg
  | [] => acc
  | s :: r =>
    if s = [] ∨ s = dotSeg then normAbsGo acc r
    else if s = dotdotSeg then normAbsGo acc.dropLast r
    else normAbsGo (acc ++ [s]) r

/-- Normalize the segments of an absolute path. -/
def normAbs (segs : List Seg) : List Seg := normAbsGo [] segs

/-- Worker for relative-path normalization: like `normAbsGo` but keeps
leading `..` segments that cannot be popped. -/
def normRelGo (acc : List Seg) : List Seg → List Seg
  | [] => acc
  | s :: r =>
    if s = [] ∨ s = dotSeg then normRelGo acc r
    else if s = dotdotSeg then
      if acc = [] ∨ acc.getLast? = some dotdotSeg then normRelGo (acc ++ [s]) r
      else normRelGo acc.dropLast r
    else normRelGo (acc ++ [s]) r

/-- Normalize the segments of a relative path. -/
def normRel (segs : List Seg) : List Seg := normRelGo [] segs

/-- `path.join` of an absolute base with relative pieces: concatenate the
segments and normalize. -/
def joinAbs (base : List Seg) (parts : List Seg) : List Seg :=
  normAbs (base ++ parts)

/-- `path.join` of two relative pieces. -/
def joinRel (a b : List Seg) : List Seg := normRel (a ++ b)

/-- `path.relative` between two normalized absolute paths, as segments:
drop the common prefix, then one `..` per remaining source segment
followed by the remaining target segments. -/
def relSegs : List Seg → List Seg → List Seg
  | [], t => t
  | f, [] => f.map (fun _ => dotdotSeg)
  | a :: f, b :: t =>
    if a = b then relSegs f t
    else (a :: f).map (fun _ => dotdotSeg) ++ (b :: t)

/-- `path.resolve(dir, p)` where `dir` is an absolute directory (as
normalized segments) and `p` a path string: an absolute `p` replaces
`dir`, otherwise the two are joined; the result is normalized. -/
def resolvePath (dir : List Seg) (p : JStr) : List Seg :=
  if p.head? = some '/' then normAbs (splitSlash p)
  else normAbs (dir ++ splitSlash p)

/-- The content root (`REPO_ROOT = process.cwd()`), fixed to the
absolute path `/repo` for this development. -/
def REPO_ROOT : List Seg := [sg "repo"]

/-- The output root (`OUTPUT_ROOT = path.join(REPO_ROOT, "_site")`). -/
def OUTPUT_ROOT : List Seg := [sg "repo", sg "_site"]

/-- The `index.html` filename segment. -/
def indexHtmlSeg : Seg := sg "index.html"

/-- The Markdown extension, as tested by `/\.md$/i`. -/
def mdExt : JStr := sg ".md"

/-- The `.html` extension, as tested by `/\.html$/i`. -/
def htmlExt : JStr := sg ".html"

/-- Strip a trailing `.md` (case-insensitive) from a filename:
`base.replace(/\.md$/i, "")`. -/
def stripMd (s : Seg) : Seg := if endsWithCI s mdExt then dropRightN s 3 else s

/-- `computeOutputHtmlPath` (render.js lines 108–127): the canonical
output location of a Markdown source.  `rel` is the path relative to the
content root, `base`/`dir` its filename and directory; the home document
at the root maps to `index.html` at the output root, every other
document to `<dir>/<name>/index.html` where `name` strips the `.md`
extension. -/
def computeOutputHtmlPath (mdPath : List Seg) (homeMdBasename : Seg) : List Seg :=
  let rel := relSegs REPO_ROOT mdPath
  let base := rel.getLastD []
  let dir := rel.dropLast
  if dir = [] ∧ base = homeMdBasename then
    joinAbs OUTPUT_ROOT [indexHtmlSeg]
  else
    let name := stripMd base
    joinAbs OUTPUT_ROOT ((if dir = [] then [name] else joinRel dir [name]) ++ [indexHtmlSeg])

/-- `toRelativeHref` (render.js lines 129–133): the `/`-joined relative
path from `fromDir` to `toFile`, with the empty result replaced by
`index.html`. -/
def toRelativeHref (fromDir toFile : List Seg) : JStr :=
  let rel := joinSlash (relSegs fromDir toFile)
  if rel = [] then sg "index.html" else rel

/-- `toExtensionlessPath` (render.js lines 135–144): remove a trailing
`index` or `index.html` segment (the regex
`(?:^|\/)index(?:\.html)?$`, whose replacement discards the matched
text including a preceding slash), then strip one remaining trailing
`.html`. -/
def toExtensionlessPath (href : JStr) : JStr :=
  let s1 :=
    if endsWithCI href (sg "/index.html") then dropRightN href 11
    else if eqCI href (sg "index.html") then []
    else if endsWithCI href (sg "/index") then dropRightN href 6
    else if eqCI href (sg "index") then []
    else href
  if endsWithCI s1 htmlExt then dropRightN s1 5 else s1

/-- The absolute-URL test `/^(https?:)?\/\//i`. -/
def isAbsUrl (s : JStr) : Bool :=
  startsWithCI s (sg "//") || startsWithCI s (sg "http://") || startsWithCI s (sg "https://")

/-- The `/^(mailto:|tel:)/i` test. -/
def isMailtoTel (s : JStr) : Bool :=
  startsWithCI s (sg "mailto:") || startsWithCI s (sg "tel:")

/-- Numeric value of a hex digit, if any. -/
def hexVal (c : Char) : Option Nat :=
  let n := c.toNat
  if 48 ≤ n ∧ n ≤ 57 then some (n - 48)
  else if 65 ≤ n ∧ n ≤ 70 then some (n - 55)
  else if 97 ≤ n ∧ n ≤ 102 then some (n - 87)
  else none

/-- Characters of `decodeURI`'s reserved set, whose escapes are left
encoded. -/
def reservedURIChar (c : Char) : Bool :=
  c ∈ [';', '/', '?', ':', '@', '&', '=', '+', '$', ',', '#']

/-- Read one `%XY` escape, returning the byte value and the rest. -/
def readEscByte : JStr → Option (Nat × JStr)
  | '%' :: h1 :: h2 :: r =>
    match hexVal h1, hexVal h2 with
    | some a, some b => some (16 * a + b, r)
    | _, _ => none
  | _ => none

/-- Fuelled worker for `decodeURI`: per ECMA-262, a `%` must begin a
well-formed escape; single-byte values in the reserved set are left
encoded; lead bytes `0x80`–`0xFF` must begin a valid UTF-8 sequence of
continuation escapes, otherwise a `URIError` is thrown (modelled as
`none`). -/
def decodeURIGo : Nat → JStr → Option JStr
  | _, [] => some []
  | 0, _ :: _ => none
  | fuel + 1, c :: r =>
    if c = '%' then
      match readEscByte (c :: r) with
      | none => none
      | some (b, r1) =>
        if b < 0x80 then
          match decodeURIGo fuel r1 with
          | none => none
          | some out =>
            some (if reservedURIChar (Char.ofNat b)
                  then '%' :: r.take 2 ++ out else Char.ofNat b :: out)
        else if 0xC2 ≤ b ∧ b ≤ 0xDF then
          match readEscByte r1 with
          | some (b2, r2) =>
            if 0x80 ≤ b2 ∧ b2 ≤ 0xBF then
              match decodeURIGo fuel r2 with
              | none => none
              | some out => some (Char.ofNat ((b - 0xC0) * 64 + (b2 - 0x80)) :: out)
            else none
          | none => none
        else if 0xE0 ≤ b ∧ b ≤ 0xEF then
          match readEscByte r1 with
          | some (b2, r2) =>
            match readEscByte r2 with
            | some (b3, r3) =>
              if 0x80 ≤ b2 ∧ b2 ≤ 0xBF ∧ 0x80 ≤ b3 ∧ b3 ≤ 0xBF then
                let cp := (b - 0xE0) * 4096 + (b2 - 0x80) * 64 + (b3 - 0x80)
                if 0x800 ≤ cp ∧ ¬(0xD800 ≤ cp ∧ cp ≤ 0xDFFF) then
                  match decodeURIGo fuel r3 with
                  | none => none
                  | some out => some (Char.ofNat cp :: out)
                else none
              else none
            | none => none
          | none => none
        else if 0xF0 ≤ b ∧ b ≤ 0xF4 then
          match readEscByte r1 with
          | some (b2, r2) =>
            match readEscByte r2 with
            | some (b3, r3) =>
              match readEscByte r3 with
              | some (b4, r4) =>
                if 0x80 ≤ b2 ∧ b2 ≤ 0xBF ∧ 0x80 ≤ b3 ∧ b3 ≤ 0xBF ∧
                    0x80 ≤ b4 ∧ b4 ≤ 0xBF then
                  let cp := (b - 0xF0) * 262144 + (b2 - 0x80) * 4096 +
                    (b3 - 0x80) * 64 + (b4 - 0x80)
                  if 0x10000 ≤ cp ∧ cp ≤ 0x10FFFF then
                    match decodeURIGo fuel r4 with
                    | none => none
                    | some out => some (Char.ofNat cp :: out)
                  else none
                else none
              | none => none
            | none => none
          | none => none
        else none
    else
      match decodeURIGo fuel r with
      | none => none
      | some out => some (c :: out)

/-- `decodeURI`, returning `none` where JavaScript throws `URIError`. -/
def decodeURI! (s : JStr) : Option JStr := decodeURIGo s.length s

/-- The value rewriting performed by `processAttr` (render.js lines
152–192) on one `href`/`src` attribute value `raw` of a document at
`sourceMdPath`: empty, absolute-URL, `mailto:`/`tel:` and
fragment-only references are returned unchanged; otherwise the fragment
and query are split off, the path-part is decoded and resolved against
the source document's directory, mapped to its output location
(via `computeOutputHtmlPath` for Markdown targets, the identity asset
mapping otherwise), relativized against the source document's output
directory, normalized extensionless for Markdown targets ( `.`
substituted when empty), and reassembled with query and fragment.
`none` models the uncaught `URIError` thrown by `decodeURI`. -/
def processAttrValue (sourceMdPath : List Seg) (homeMdBasename : Seg)
    (raw : JStr) : Option JStr :=
  if raw = [] then some raw
  else if isAbsUrl raw then some raw
  else if isMailtoTel raw then some raw
  else if raw.head? = some '#' then some raw
  else
    let ph := splitFirstKeep '#' raw
    let hash := ph.2
    let pq := splitFirstKeep '?' ph.1
    let url := pq.1
    let query := pq.2
    match decodeURI! url with
    | none => none
    | some decoded =>
      let resolvedTarget := resolvePath sourceMdPath.dropLast decoded
      let targetOutputAbs :=
        if endsWithCI url mdExt then
          computeOutputHtmlPath resolvedTarget homeMdBasename
        else
          joinAbs OUTPUT_ROOT (relSegs REPO_ROOT resolvedTarget)
      let sourceOutDir := (computeOutputHtmlPath sourceMdPath homeMdBasename).dropLast
      let relativeHref := toRelativeHref sourceOutDir targetOutputAbs
      let relativeHref2 :=
        if endsWithCI url mdExt then
          let e := toExtensionlessPath relativeHref
          if e = [] then sg "." else e
        else relativeHref
      some (relativeHref2 ++ query ++ hash)

/-- The path-part of a reference, as `processAttr` extracts it (fragment
split first, then query). -/
def pathPartOf (raw : JStr) : JStr :=
  (splitFirstKeep '?' (splitFirstKeep '#' raw).1).1

/-- The file that a rewritten reference designates, resolved from an
output directory under the directory-index convention.  Modelled from the
spec: "a path naming directory `a/c` serves `a/c/index.html`". -/
def servedAt (outDir : List Seg) (href : JStr) : List Seg :=
  normAbs (outDir ++ splitSlash href) ++ [indexHtmlSeg]

/-- The value `processAttr` computes for a plain local path-part (one
with no fragment, query or percent-escape): the tail of
`processAttrValue` after the splitting and decoding steps become
identities.  Used to state the unfolding lemmas below. -/
def localRewrite (sourceMdPath : List Seg) (homeMdBasename : Seg) (url : JStr) : JStr :=
  let resolvedTarget := resolvePath sourceMdPath.dropLast url
  let targetOutputAbs :=
    if endsWithCI url mdExt then
      computeOutputHtmlPath resolvedTarget homeMdBasename
    else
      joinAbs OUTPUT_ROOT (relSegs REPO_ROOT resolvedTarget)
  let sourceOutDir := (computeOutputHtmlPath sourceMdPath homeMdBasename).dropLast
  let relativeHref := toRelativeHref sourceOutDir targetOutputAbs
  if endsWithCI url mdExt then
    let e := toExtensionlessPath relativeHref
    if e = [] then sg "." else e
  else relativeHref

/-- `escapeHtml` (render.js lines 32–41). -/
def escapeChar (c : Char) : JStr :=
  if c = '&' then sg "&amp;"
  else if c = '<' then sg "&lt;"
  else if c = '>' then sg "&gt;"
  else if c = '"' then sg "&quot;"
  else if c = '\'' then sg "&#039;"
  else [c]

/-- `escapeHtml` over a whole string. -/
def escapeHtml (text : JStr) : JStr := text.flatMap escapeChar

/-- The JavaScript `\s` whitespace test (ASCII part). -/
def isJsWs (c : Char) : Bool :=
  c = ' ' ∨ c = '\t' ∨ c = '\n' ∨ c = '\r' ∨ c = Char.ofNat 11 ∨ c = Char.ofNat 12

/-- JavaScript `String.prototype.trim`. -/
def jsTrim (s : JStr) : JStr :=
  ((s.dropWhile isJsWs).reverse.dropWhile isJsWs).reverse

/-- Split a string on a separator character. -/
def splitOnChar (sep : Char) : JStr → List JStr
  | [] => [[]]
  | c :: r =>
    let rest := splitOnChar sep r
    if c = sep then [] :: rest
    else
      match rest with
      | s :: t => (c :: s) :: t
      | [] => [[c]]

/-- Match one line against `^\s{0,3}#\s+(.+)$`: at most three leading
whitespace characters, a `#`, at least one whitespace character, and at
least one further character; the captured group is trimmed. -/
def lineH1 (l : JStr) : Option JStr :=
  let w := l.takeWhile isJsWs
  if w.length ≤ 3 then
    match l.drop w.length with
    | '#' :: c :: r2 => if isJsWs c ∧ r2 ≠ [] then some (jsTrim (c :: r2)) else none
    | _ => none
  else none

/-- `parseFirstH1` (render.js lines 98–103): the first line matching the
ATX level-1 heading regex; `none` models the thrown
`"No H1 header found"` error. -/
def parseFirstH1 (md : JStr) : Option JStr :=
  (splitOnChar '\n' md).findSome? lineH1

/-- Frontmatter attributes: the string-keyed mapping consumed from
`yaml.load`'s result. -/
abbrev Attrs := List (JStr × JStr)

/-- The result shape of `parseYamlFrontmatter`. -/
structure Frontmatter where
  attributes : Attrs
  body : JStr
  deriving DecidableEq

/-- Find the first occurrence of `pat` in a string; returns the text
before it and the text after it. -/
def findSub (pat : JStr) : JStr → Option (JStr × JStr)
  | [] => if pat.isPrefixOf ([] : JStr) then some ([], []) else none
  | c :: r =>
    if pat.isPrefixOf (c :: r) then some ([], (c :: r).drop pat.length)
    else
      match findSub pat r with
      | some (a, b) => some (c :: a, b)
      | none => none

/-- Match the frontmatter delimiters `^---\s*\n([\s\S]*?)\n---\s*\n?`:
after the opening `---`, a greedy whitespace run must contain a newline
(the match consumes up to its last one); the lazy group ends at the
first `\n---`; the trailing `\s*` then swallows the whitespace after
the closing delimiter.  Returns the YAML text and the remaining body. -/
def fmSplit (md : JStr) : Option (JStr × JStr) :=
  match md with
  | '-' :: '-' :: '-' :: rest =>
    let run := rest.takeWhile isJsWs
    let tailNoNl := (run.reverse.takeWhile (fun c => c ≠ '\n')).length
    if tailNoNl = run.length then none
    else
      match findSub (sg "\n---") (rest.drop (run.length - tailNoNl)) with
      | some (yamlText, afterClose) => some (yamlText, afterClose.dropWhile isJsWs)
      | none => none
  | _ => none

/-- `parseYamlFrontmatter` (render.js lines 84–96), parameterized by the
external YAML loader (`yaml.load`); `none` from the loader models both a
thrown parse error (swallowed by the `catch`, leaving `{}`) and a falsy
result (replaced by `{}` via `|| {}`).  The function itself cannot
fail: a malformed or absent frontmatter block never aborts. -/
def parseYamlFrontmatter (yamlLoad : JStr → Option Attrs) (md : JStr) : Frontmatter :=
  match fmSplit md with
  | none => ⟨[], md⟩
  | some (yamlText, body) => ⟨(yamlLoad yamlText).getD [], body⟩

/-- A resolved navigation entry. -/
inductive NavItem where
  | internal (mdPath : List Seg) (title : JStr) (outPath : List Seg)
  | external (href : JStr) (title : JStr)
  deriving DecidableEq

/-- The abstract filesystem consulted by `buildNavItems` (`fs.stat`,
`fs.access`, `fs.readFile`); `readFile` returning `none` models a
thrown read error. -/
structure FS where
  isDir : List Seg → Bool
  fileExists : List Seg → Bool
  readFile : List Seg → Option JStr

/-- The literal fallback title of the home document. -/
def homeTitle : JStr := sg "Home"

/-- `resolveMdNavItem` (render.js lines 257–278): a provided (truthy)
title wins; otherwise the document's first H1; otherwise `"Home"` for
the home document at the content root, else the filename without its
`.md` extension.  A read failure and a missing H1 both fall to the
same fallback (one `catch`). -/
def resolveMdNavItem (fs : FS) (homeMdBasename : Seg) (mdPathAbs : List Seg)
    (providedTitle : Option JStr) : NavItem :=
  let provided := match providedTitle with
    | some t => if t = [] then none else some t
    | none => none
  let title := match provided with
    | some t => t
    | none =>
      match fs.readFile mdPathAbs >>= parseFirstH1 with
      | some t => t
      | none =>
        if mdPathAbs.getLastD [] = homeMdBasename ∧ mdPathAbs.dropLast = REPO_ROOT
        then homeTitle
        else stripMd (mdPathAbs.getLastD [])
  NavItem.internal mdPathAbs title (computeOutputHtmlPath mdPathAbs homeMdBasename)

/-- The `README.md` filename segment. -/
def readmeSeg : Seg := sg "README.md"

/-- The `index.md` filename segment. -/
def indexMdSeg : Seg := sg "index.md"

/-- `resolveDirKey` (render.js lines 280–297): a directory key resolves
through its `README.md`, else its `index.md`, else not at all; a
missing or non-directory key also resolves to nothing. -/
def resolveDirKey (fs : FS) (homeMdBasename : Seg) (dirKey : JStr)
    (providedTitle : Option JStr) : Option NavItem :=
  let dirAbs := joinAbs REPO_ROOT (splitSlash dirKey)
  if fs.isDir dirAbs then
    if fs.fileExists (joinAbs dirAbs [readmeSeg]) then
      some (resolveMdNavItem fs homeMdBasename (joinAbs dirAbs [readmeSeg]) providedTitle)
    else if fs.fileExists (joinAbs dirAbs [indexMdSeg]) then
      some (resolveMdNavItem fs homeMdBasename (joinAbs dirAbs [indexMdSeg]) providedTitle)
    else none
  else none

/-- The external-key test used by `buildNavItems` (render.js lines
314–315), identical to the reference classifier of `processAttr`. -/
def isExternalKey (key : JStr) : Bool := isAbsUrl key || isMailtoTel key

/-- The external-entry title: the provided (truthy) title, else the key
itself. -/
def titleOrKey (key : JStr) (providedTitle : Option JStr) : JStr :=
  match providedTitle with
  | some t => if t = [] then key else t
  | none => key

/-- One iteration of the `buildNavItems` loop (render.js lines 311–340):
external keys become external entries; `.md` keys resolve as Markdown
files; anything else is tried as a directory and, failing that, falls
back to an external entry with the key as its verbatim href. -/
def buildNavItem (fs : FS) (homeMdBasename : Seg) (key : JStr)
    (providedTitle : Option JStr) : NavItem :=
  if isExternalKey key then NavItem.external key (titleOrKey key providedTitle)
  else if endsWithCI key mdExt then
    resolveMdNavItem fs homeMdBasename (joinAbs REPO_ROOT (splitSlash key)) providedTitle
  else
    match resolveDirKey fs homeMdBasename key providedTitle with
    | some item => item
    | none => NavItem.external key (titleOrKey key providedTitle)

/-- A configured navigation entry: a bare key or a `{key: title}` pair. -/
inductive NavSpec where
  | bare (key : JStr)
  | withTitle (key : JStr) (title : JStr)

/-- `buildNavItems` over the whole `nav` configuration list. -/
def buildNavItems (fs : FS) (homeMdBasename : Seg) (nav : List NavSpec) : List NavItem :=
  nav.map fun s =>
    match s with
    | .bare k => buildNavItem fs homeMdBasename k none
    | .withTitle k t => buildNavItem fs homeMdBasename k (some t)

/-- One link of `buildNavHtml`'s `links` map (render.js lines 351–365):
external entries open in a new tab; internal entries relativize their
output path against the current page's output directory and normalize it
extensionless, with no further substitution. -/
def navLinkHtml (currentOutDir : List Seg) (item : NavItem) : JStr :=
  match item with
  | .external href title =>
    sg "<a href=\"" ++ escapeHtml href ++
      sg "\" style=\"margin-right:12px;\" target=\"_blank\" rel=\"noopener noreferrer\">" ++
      escapeHtml title ++ sg "</a>"
  | .internal _ title outPath =>
    let hrefFile := toRelativeHref currentOutDir outPath
    let href := toExtensionlessPath hrefFile
    sg "<a href=\"" ++ href ++ sg "\" style=\"margin-right:12px;\">" ++
      escapeHtml title ++ sg "</a>"

/-- The distinguished home/site-title href of `buildNavHtml` (render.js
lines 366–368): like an internal link, but an empty result is replaced
by the current-directory marker. -/
def navHomeHref (currentOutDir homeOutPathAbsolute : List Seg) : JStr :=
  let homeHrefFile := toRelativeHref currentOutDir homeOutPathAbsolute
  let homeHref := toExtensionlessPath homeHrefFile
  if homeHref = [] then sg "." else homeHref

/-! ## Helper lemmas -/

theorem lowerStr_append (a b : JStr) : lowerStr (a ++ b) = lowerStr a ++ lowerStr b :=
  List.map_append _ a b

theorem endsWithCI_iff {s suf : JStr} :
    endsWithCI s suf = true ↔ lowerStr suf <:+ lowerStr s := by
  unfold endsWithCI
  exact List.isSuffixOf_iff_suffix

theorem eqCI_iff {a b : JStr} : eqCI a b = true ↔ lowerStr a = lowerStr b := by
  unfold eqCI
  exact decide_eq_true_iff

theorem splitFirstKeep_not_mem {c : Char} {s : JStr} (h : c ∉ s) :
    splitFirstKeep c s = (s, []) := by
  induction s with
  | nil => rfl
  | cons x xs ih =>
    have hx : ¬x = c := fun he => h (he ▸ List.mem_cons_self x xs)
    have hxs : c ∉ xs := fun hm => h (List.mem_cons_of_mem _ hm)
    simp [splitFirstKeep, hx, ih hxs]

theorem splitFirstKeep_append {c : Char} {a b : JStr} (h : c ∉ a) :
    splitFirstKeep c (a ++ c :: b) = (a, c :: b) := by
  induction a with
  | nil => simp [splitFirstKeep]
  | cons x xs ih =>
    have hx : ¬x = c := fun he => h (he ▸ List.mem_cons_self x xs)
    have hxs : c ∉ xs := fun hm => h (List.mem_cons_of_mem _ hm)
    simp [splitFirstKeep, hx, ih hxs]

theorem decodeURIGo_no_percent {fuel : Nat} {s : JStr} (hf : s.length ≤ fuel)
    (h : '%' ∉ s) : decodeURIGo fuel s = some s := by
  induction fuel generalizing s with
  | zero =>
    cases s with
    | nil => rfl
    | cons c r => simp at hf
  | succ n ih =>
    cases s with
    | nil => rfl
    | cons c r =>
      have hc : ¬c = '%' := fun he => h (he ▸ List.mem_cons_self c r)
      have hr : '%' ∉ r := fun hm => h (List.mem_cons_of_mem _ hm)
      have hlen : r.length ≤ n := by simpa using Nat.le_of_succ_le_succ (by simpa using hf)
      simp [decodeURIGo, hc, ih hlen hr]

theorem decodeURI_no_percent {s : JStr} (h : '%' ∉ s) : decodeURI! s = some s :=
  decodeURIGo_no_percent (Nat.le_refl _) h

theorem relSegs_append (l xs : List Seg) : relSegs l (l ++ xs) = xs := by
  induction l with
  | nil => cases xs <;> rfl
  | cons a f ih => simpa [relSegs] using ih

theorem relSegs_structure (f t : List Seg) :
    ∃ k m, relSegs f t = List.replicate k dotdotSeg ++ m ∧ m <:+ t := by
  induction f generalizing t with
  | nil => exact ⟨0, t, by simp [relSegs], List.suffix_refl t⟩
  | cons a f ih =>
    cases t with
    | nil =>
      refine ⟨f.length + 1, [], ?_, List.nil_suffix⟩
      simp [relSegs, List.map_const', List.replicate_succ]
    | cons b t =>
      by_cases hab : a = b
      · obtain ⟨k, m, hrel, hsuf⟩ := ih t
        exact ⟨k, m, by simp [relSegs, hab, hrel], hsuf.trans (List.suffix_cons b t)⟩
      · refine ⟨f.length + 1, b :: t, ?_, List.suffix_refl _⟩
        simp [relSegs, hab, List.map_const', List.replicate_succ]

theorem normAbsGo_all_normal {l : List Seg} (acc : List Seg)
    (h : ∀ s ∈ l, normalSeg s) : normAbsGo acc l = acc ++ l := by
  induction l generalizing acc with
  | nil => simp [normAbsGo]
  | cons s r ih =>
    obtain ⟨h1, h2, h3⟩ := h s (List.mem_cons_self s r)
    have hr : ∀ x ∈ r, normalSeg x := fun x hx => h x (List.mem_cons_of_mem _ hx)
    simp [normAbsGo, h1, h2, h3, ih (acc ++ [s]) hr]

theorem normAbsGo_mem_normal {l : List Seg} {acc : List Seg}
    (hacc : ∀ s ∈ acc, normalSeg s) : ∀ s ∈ normAbsGo acc l, normalSeg s := by
  induction l generalizing acc with
  | nil => simpa [normAbsGo] using hacc
  | cons s r ih =>
    by_cases h1 : s = [] ∨ s = dotSeg
    · simpa [normAbsGo, h1] using ih hacc
    · by_cases h2 : s = dotdotSeg
      · have hd : ∀ x ∈ acc.dropLast, normalSeg x := fun x hx =>
          hacc x ((List.dropLast_prefix acc).subset hx)
        simpa [normAbsGo, h1, h2] using ih hd
      · have hs : normalSeg s := by
          push_neg at h1
          exact ⟨h1.1, h1.2, h2⟩
        have ha : ∀ x ∈ acc ++ [s], normalSeg x := by
          intro x hx
          rcases List.mem_append.mp hx with hx | hx
          · exact hacc x hx
          · simpa using List.mem_singleton.mp hx ▸ hs
        simpa [normAbsGo, h1, h2] using ih ha

theorem normAbsGo_append_last {x : Seg} (hx : normalSeg x) :
    ∀ (l : List Seg) (acc : List Seg),
      normAbsGo acc (l ++ [x]) = normAbsGo acc l ++ [x] := by
  intro l
  induction l with
  | nil =>
    intro acc
    obtain ⟨h1, h2, h3⟩ := hx
    simp [normAbsGo, h1, h2, h3]
  | cons s r ih =>
    intro acc
    by_cases h1 : s = [] ∨ s = dotSeg
    · simp [normAbsGo, h1, ih]
    · by_cases h2 : s = dotdotSeg
      · simp [normAbsGo, h1, h2, ih, dotdotSeg, dotSeg]
      · simp [normAbsGo, h1, h2, ih]

theorem normRelGo_all_normal {l : List Seg} (acc : List Seg)
    (h : ∀ s ∈ l, normalSeg s) : normRelGo acc l = acc ++ l := by
  induction l generalizing acc with
  | nil => simp [normRelGo]
  | cons s r ih =>
    obtain ⟨h1, h2, h3⟩ := h s (List.mem_cons_self s r)
    have hr : ∀ x ∈ r, normalSeg x := fun x hx => h x (List.mem_cons_of_mem _ hx)
    simp [normRelGo, h1, h2, h3, ih (acc ++ [s]) hr]

theorem joinSlash_append_last (K : List Seg) (x : Seg) :
    joinSlash (K ++ [x]) = if K = [] then x else joinSlash K ++ '/' :: x := by
  induction K with
  | nil => rfl
  | cons a K ih =>
    cases K with
    | nil => simp [joinSlash]
    | cons b K' => simp_all [joinSlash]

theorem suffix_append_right {s a b : List Char} (h : s <:+ a ++ b)
    (hl : s.length ≤ b.length) : s <:+ b := by
  obtain ⟨pre, hp⟩ := h
  have h2 : pre.take a.length ++ (pre.drop a.length ++ s) = a ++ b := by
    rw [← List.append_assoc, List.take_append_drop]
    exact hp
  have hlen : pre.length + s.length = a.length + b.length := by
    have := congrArg List.length hp
    simpa using this
  have hpre : a.length ≤ pre.length := by omega
  have htk : (pre.take a.length).length = a.length := by
    simp [List.length_take]
    omega
  exact ⟨pre.drop a.length, (List.append_inj h2 htk).2⟩

theorem mem_of_suffix_middle {s a b : List Char} {c : Char} (h : s <:+ a ++ c :: b)
    (hl : b.length < s.length) : c ∈ s := by
  obtain ⟨pre, hp⟩ := h
  have hlen : pre.length + s.length = a.length + (b.length + 1) := by
    have := congrArg List.length hp
    simpa using this
  have hpre : pre.length ≤ a.length := by omega
  have hs : s = a.drop pre.length ++ c :: b := by
    have := congrArg (List.drop pre.length) hp
    rwa [List.drop_append_of_le_length hpre, List.drop_left] at this
  rw [hs]
  exact List.mem_append_right _ (List.mem_cons_self c b)

theorem lowerStr_joinSlash_cons (x : Seg) (y : Seg) (r : List Seg) :
    lowerStr (joinSlash (x :: y :: r)) =
      lowerStr x ++ '/' :: lowerStr (joinSlash (y :: r)) := by
  have h47 : lowerChar '/' = '/' := by decide
  simp [joinSlash, lowerStr, h47]

theorem endsWithCI_joinSlash {l : List Seg} {suf : JStr} (hs : '/' ∉ lowerStr suf)
    (h : endsWithCI (joinSlash l) suf = true) :
    endsWithCI (l.getLastD []) suf = true := by
  induction l with
  | nil => simpa [joinSlash] using h
  | cons x xs ih =>
    cases xs with
    | nil => simpa [joinSlash] using h
    | cons y r =>
      rw [endsWithCI_iff] at h
      rw [lowerStr_joinSlash_cons] at h
      have hres : lowerStr suf <:+ lowerStr (joinSlash (y :: r)) := by
        by_cases hl : (lowerStr suf).length ≤ (lowerStr (joinSlash (y :: r))).length
        · have h' : lowerStr suf <:+ (lowerStr x ++ ['/']) ++ lowerStr (joinSlash (y :: r)) := by
            simpa [List.append_assoc] using h
          exact suffix_append_right h' hl
        · exact absurd (mem_of_suffix_middle h (by omega)) hs
      have := ih (endsWithCI_iff.mpr hres)
      simpa [List.getLastD_cons] using this

theorem mem_joinSlash {c : Char} {l : List Seg} (h : c ∈ joinSlash l) :
    c = '/' ∨ ∃ s ∈ l, c ∈ s := by
  induction l with
  | nil => simp [joinSlash] at h
  | cons x xs ih =>
    cases xs with
    | nil =>
      right
      exact ⟨x, List.mem_cons_self x [], by simpa [joinSlash] using h⟩
    | cons y r =>
      simp only [joinSlash] at h
      rcases List.mem_append.mp h with hx | hr
      · exact Or.inr ⟨x, List.mem_cons_self _ _, hx⟩
      · rcases List.mem_cons.mp hr with hc | hj
        · exact Or.inl hc
        · rcases ih hj with hc | ⟨s, hsm, hcs⟩
          · exact Or.inl hc
          · exact Or.inr ⟨s, List.mem_cons_of_mem _ hsm, hcs⟩

theorem dots_chars {k : Nat} {c : Char}
    (h : c ∈ joinSlash (List.replicate k dotdotSeg)) : c = '.' ∨ c = '/' := by
  rcases mem_joinSlash h with hc | ⟨s, hsm, hcs⟩
  · exact Or.inr hc
  · have : s = dotdotSeg := List.eq_of_mem_replicate hsm
    subst this
    rcases List.mem_cons.mp hcs with hc | hc
    · exact Or.inl hc
    · exact Or.inl (by simpa [dotdotSeg] using hc)

theorem dots_not_endsWith {k : Nat} {pat : JStr} {c : Char} (hc : c ∈ lowerStr pat)
    (h1 : c ≠ '.') (h2 : c ≠ '/') :
    endsWithCI (joinSlash (List.replicate k dotdotSeg)) pat = false := by
  by_contra hne
  have ht : endsWithCI (joinSlash (List.replicate k dotdotSeg)) pat = true := by
    revert hne
    cases endsWithCI (joinSlash (List.replicate k dotdotSeg)) pat <;> simp
  have hmem : c ∈ lowerStr (joinSlash (List.replicate k dotdotSeg)) :=
    (endsWithCI_iff.mp ht).subset hc
  obtain ⟨c', hc', he⟩ := List.mem_map.mp hmem
  rcases dots_chars hc' with h | h <;> subst h
  · exact h1 (by simpa using he.symm)
  · exact h2 (by simpa using he.symm)

theorem dots_not_eqCI {k : Nat} {pat : JStr} {c : Char} (hc : c ∈ lowerStr pat)
    (h1 : c ≠ '.') (h2 : c ≠ '/') :
    eqCI (joinSlash (List.replicate k dotdotSeg)) pat = false := by
  by_contra hne
  have ht : eqCI (joinSlash (List.replicate k dotdotSeg)) pat = true := by
    revert hne
    cases eqCI (joinSlash (List.replicate k dotdotSeg)) pat <;> simp
  have hmem : c ∈ lowerStr (joinSlash (List.replicate k dotdotSeg)) := by
    rw [eqCI_iff.mp ht]
    exact hc
  obtain ⟨c', hc', he⟩ := List.mem_map.mp hmem
  rcases dots_chars hc' with h | h <;> subst h
  · exact h1 (by simpa using he.symm)
  · exact h2 (by simpa using he.symm)

theorem toExtensionlessPath_dots (k : Nat) :
    toExtensionlessPath (joinSlash (List.replicate k dotdotSeg)) =
      joinSlash (List.replicate k dotdotSeg) := by
  have hi1 : ('i' : Char) ∈ lowerStr (sg "/index.html") := by decide
  have hi2 : ('i' : Char) ∈ lowerStr (sg "index.html") := by decide
  have hi3 : ('i' : Char) ∈ lowerStr (sg "/index") := by decide
  have hi4 : ('i' : Char) ∈ lowerStr (sg "index") := by decide
  have hh : ('h' : Char) ∈ lowerStr htmlExt := by decide
  simp [toExtensionlessPath,
    @dots_not_endsWith k _ _ hi1 (by decide) (by decide),
    @dots_not_eqCI k _ _ hi2 (by decide) (by decide),
    @dots_not_endsWith k _ _ hi3 (by decide) (by decide),
    @dots_not_eqCI k _ _ hi4 (by decide) (by decide),
    @dots_not_endsWith k _ _ hh (by decide) (by decide)]

theorem suffix_concat_decompose {m Z : List Seg} {x : Seg} (h : m <:+ Z ++ [x])
    (hm : m ≠ []) : ∃ m', m = m' ++ [x] ∧ m' <:+ Z := by
  obtain ⟨pre, hp⟩ := h
  have hm2 : m = m.dropLast ++ [m.getLast hm] := (List.dropLast_append_getLast hm).symm
  rw [hm2, ← List.append_assoc] at hp
  have := List.append_inj' hp (by simp)
  obtain ⟨h1, h2⟩ := this
  simp at h2
  refine ⟨m.dropLast, ?_, ⟨pre, h1⟩⟩
  nth_rewrite 1 [hm2]
  rw [h2]

theorem suffix_getLastD {m Z : List Seg} (h : m <:+ Z) (hm : m ≠ []) :
    m.getLastD [] = Z.getLastD [] := by
  obtain ⟨pre, rfl⟩ := h
  have := List.getLast?_append_of_ne_nil pre hm
  simp only [List.getLastD_eq_getLast?]
  rw [this]

theorem joinAbs_concat_ih (M : List Seg) :
    joinAbs OUTPUT_ROOT (M ++ [indexHtmlSeg]) =
      normAbs (OUTPUT_ROOT ++ M) ++ [indexHtmlSeg] := by
  unfold joinAbs normAbs
  rw [← List.append_assoc]
  exact normAbsGo_append_last (by decide) _ []

theorem computeOutputHtmlPath_shape (p : List Seg) (hb : Seg) :
    computeOutputHtmlPath p hb =
      (computeOutputHtmlPath p hb).dropLast ++ [indexHtmlSeg] := by
  simp only [computeOutputHtmlPath]
  split
  · decide
  · rw [joinAbs_concat_ih, List.dropLast_concat]

theorem normal_OUTPUT_ROOT : ∀ s ∈ OUTPUT_ROOT, normalSeg s := by decide

theorem compute_out_nonroot (ds : List Seg) (b hb : Seg) (hds : ds ≠ [])
    (hnorm : ∀ s ∈ ds, normalSeg s) (hname : normalSeg (stripMd b)) :
    computeOutputHtmlPath (REPO_ROOT ++ (ds ++ [b])) hb =
      OUTPUT_ROOT ++ ds ++ [stripMd b, indexHtmlSeg] := by
  have hrel : relSegs REPO_ROOT (REPO_ROOT ++ (ds ++ [b])) = ds ++ [b] :=
    relSegs_append _ _
  have hbase : (ds ++ [b]).getLastD [] = b := by
    simp [List.getLastD_eq_getLast?]
  have hdir : (ds ++ [b]).dropLast = ds := List.dropLast_concat
  simp only [computeOutputHtmlPath, hrel, hbase, hdir]
  rw [if_neg (fun hc => hds hc.1), if_neg hds]
  have hjr : joinRel ds [stripMd b] = ds ++ [stripMd b] := by
    unfold joinRel normRel
    refine normRelGo_all_normal [] ?_
    intro s hs
    rcases List.mem_append.mp hs with h | h
    · exact hnorm s h
    · exact (List.mem_singleton.mp h) ▸ hname
  rw [hjr]
  unfold joinAbs normAbs
  rw [normAbsGo_all_normal []]
  · simp
  · intro s hs
    rcases List.mem_append.mp hs with h | h
    · exact normal_OUTPUT_ROOT s h
    · rcases List.mem_append.mp h with h | h
      · rcases List.mem_append.mp h with h | h
        · exact hnorm s h
        · exact (List.mem_singleton.mp h) ▸ hname
      · exact (List.mem_singleton.mp h) ▸ (by decide)

theorem head?_ne_hash {url : JStr} (h4 : '#' ∉ url) : ¬url.head? = some '#' := by
  cases url with
  | nil => simp
  | cons c r =>
    intro hc
    simp at hc
    exact h4 (hc ▸ List.mem_cons_self c r)

theorem processAttrValue_local (src : List Seg) (hb : Seg) (url : JStr)
    (h1 : url ≠ []) (h2 : isAbsUrl url = false) (h3 : isMailtoTel url = false)
    (h4 : '#' ∉ url) (h5 : '?' ∉ url) (h6 : '%' ∉ url) :
    processAttrValue src hb url = some (localRewrite src hb url) := by
  simp only [processAttrValue, if_neg h1, h2, h3, Bool.false_eq_true, if_false,
    if_neg (head?_ne_hash h4), splitFirstKeep_not_mem h4, splitFirstKeep_not_mem h5,
    decodeURI_no_percent h6]
  simp [localRewrite]

/-! ## Claim theorems -/

/-- **C1** (code_bug evidence): the claim — and `computeOutputHtmlPath`'s
own documentation comment (`foo/index.md -> _site/foo/index.html`,
render.js lines 109–114) — say a document named `index.md` inside a
directory collapses to that directory's own `index.html`; the code
instead maps `foo/index.md` to `_site/foo/index/index.html`, because no
`index`/`README` basename is special-cased outside the root. -/
theorem C1_index_md_not_collapsed :
    computeOutputHtmlPath (REPO_ROOT ++ [sg "foo", sg "index.md"]) (sg "README.md")
      = OUTPUT_ROOT ++ [sg "foo", sg "index", sg "index.html"] ∧
    computeOutputHtmlPath (REPO_ROOT ++ [sg "foo", sg "index.md"]) (sg "README.md")
      ≠ OUTPUT_ROOT ++ [sg "foo", sg "index.html"] := by
  constructor <;> decide

/-- **C2** (counterexample): a home document `docs/home.md` (so
`homeMdBasename = "home.md"`) does **not** map to `index.html` at the
output root — the special case requires the home document to sit
directly in the content root (`dir === "."`), so it maps to
`_site/docs/home/index.html` like any other document. -/
theorem C2_home_in_subdir_cex :
    computeOutputHtmlPath (REPO_ROOT ++ [sg "docs", sg "home.md"]) (sg "home.md")
      = OUTPUT_ROOT ++ [sg "docs", sg "home", sg "index.html"] ∧
    computeOutputHtmlPath (REPO_ROOT ++ [sg "docs", sg "home.md"]) (sg "home.md")
      ≠ OUTPUT_ROOT ++ [sg "index.html"] := by
  constructor <;> decide

/-- **C2** (amended): the home document maps to exactly `index.html` at
the output root precisely when it resides directly in the content root;
placed in a subdirectory it is mapped like any non-home document, to
`<dir>/<name>/index.html`. -/
theorem C2_home_mapping_amended :
    (∀ b : Seg,
      computeOutputHtmlPath (REPO_ROOT ++ [b]) b = OUTPUT_ROOT ++ [indexHtmlSeg])
    ∧ (∀ (ds : List Seg) (b : Seg), ds ≠ [] → (∀ s ∈ ds, normalSeg s) →
        normalSeg (stripMd b) →
        computeOutputHtmlPath (REPO_ROOT ++ (ds ++ [b])) b =
          OUTPUT_ROOT ++ ds ++ [stripMd b, indexHtmlSeg]) := by
  constructor
  · intro b
    have h1 : relSegs REPO_ROOT (REPO_ROOT ++ [b]) = [b] := relSegs_append _ _
    simp only [computeOutputHtmlPath, h1]
    rw [if_pos ⟨rfl, rfl⟩]
    decide
  · intro ds b hds hn hb
    exact compute_out_nonroot ds b b hds hn hb

/-- Witness for the amended C2 at `README.md` in the root and
`docs/home.md` in a subdirectory. -/
theorem C2_home_mapping_witness :
    computeOutputHtmlPath (REPO_ROOT ++ [sg "README.md"]) (sg "README.md")
      = OUTPUT_ROOT ++ [indexHtmlSeg] ∧
    computeOutputHtmlPath (REPO_ROOT ++ ([sg "docs"] ++ [sg "home.md"])) (sg "home.md")
      = OUTPUT_ROOT ++ [sg "docs"] ++ [stripMd (sg "home.md"), indexHtmlSeg] :=
  ⟨C2_home_mapping_amended.1 (sg "README.md"),
   C2_home_mapping_amended.2 [sg "docs"] (sg "home.md") (by decide) (by decide) (by decide)⟩

/-- **C4** (counterexample): the rewrite operation is *not* total on all
reference strings: `decodeURI` throws an uncaught `URIError` on the
malformed percent-escape `"%"`, aborting the rewrite (modelled as
`none`). -/
theorem C4_malformed_escape_cex :
    processAttrValue (REPO_ROOT ++ [sg "a.md"]) (sg "README.md") (sg "%") = none := by
  decide

/-- **C4** (amended): the rewrite never fails for any reference whose
path-part's percent-escapes decode (in particular any escape-free
reference); a reference resolving outside the content root is not
rejected but resolved anyway, yielding a relative path with `..`
segments, as the second conjunct evaluates on `../../sib/x.png`. -/
theorem C4_rewrite_total :
    (∀ (src : List Seg) (hb : Seg) (raw : JStr),
      (decodeURI! (pathPartOf raw)).isSome = true →
      (processAttrValue src hb raw).isSome = true)
    ∧ processAttrValue (REPO_ROOT ++ [sg "a.md"]) (sg "README.md") (sg "../../sib/x.png")
        = some (sg "../../sib/x.png") := by
  constructor
  · intro src hb raw hdec
    unfold processAttrValue
    by_cases h0 : raw = []
    · simp [h0]
    · by_cases ha : isAbsUrl raw
      · simp [h0, ha]
      · by_cases hm : isMailtoTel raw
        · simp [h0, ha, hm]
        · by_cases hh : raw.head? = some '#'
          · simp [h0, ha, hm, hh]
          · unfold pathPartOf at hdec
            obtain ⟨d, hd⟩ := Option.isSome_iff_exists.mp hdec
            simp only [h0, ha, hm, hh, if_neg, if_false, Bool.false_eq_true]
            rw [hd]
            simp
  · decide

/-- **C5** (counterexample): `ftp://example.com` matches neither
`/^(https?:)?\/\//i` (only `http`/`https` schemes are allowed before
`//`) nor `mailto:`/`tel:`, so it is treated as a local path and
rewritten — not returned byte-identical. -/
theorem C5_ftp_rewritten_cex :
    processAttrValue (REPO_ROOT ++ [sg "a", sg "b.md"]) (sg "README.md")
        (sg "ftp://example.com") = some (sg "../ftp:/example.com") ∧
    some (sg "../ftp:/example.com") ≠ some (sg "ftp://example.com") := by
  constructor <;> decide

/-- **C5** (amended): a reference matching the absolute-URL pattern with
an *http or https* scheme (or none) before `//`, or a `mailto:`/`tel:`
scheme, or beginning with `#`, is returned byte-identical; schemes such
as `ftp://` are not in the pattern and are rewritten as local paths. -/
theorem C5_external_untouched :
    ∀ (src : List Seg) (hb : Seg) (raw : JStr),
      (isAbsUrl raw = true ∨ isMailtoTel raw = true ∨ raw.head? = some '#') →
      processAttrValue src hb raw = some raw := by
  intro src hb raw h
  unfold processAttrValue
  by_cases h0 : raw = []
  · simp [h0]
  · rcases h with h | h | h
    · simp [h0, h]
    · by_cases ha : isAbsUrl raw <;> simp [h0, ha, h]
    · by_cases ha : isAbsUrl raw <;> by_cases hm : isMailtoTel raw <;>
        simp [h0, ha, hm, h]

/-- Witness for the amended C5 on an `https://`, a `mailto:` and a
fragment-only reference. -/
theorem C5_external_untouched_witness :
    processAttrValue REPO_ROOT (sg "README.md") (sg "https://example.com")
      = some (sg "https://example.com") ∧
    processAttrValue REPO_ROOT (sg "README.md") (sg "mailto:a@b.c")
      = some (sg "mailto:a@b.c") ∧
    processAttrValue REPO_ROOT (sg "README.md") (sg "#sec") = some (sg "#sec") :=
  ⟨C5_external_untouched _ _ _ (Or.inl (by decide)),
   C5_external_untouched _ _ _ (Or.inr (Or.inl (by decide))),
   C5_external_untouched _ _ _ (Or.inr (Or.inr (by decide)))⟩

/-- **C9** (counterexample): a document whose frontmatter block is
malformed YAML does **not** abort processing: `parseYamlFrontmatter`
catches the loader's error, substitutes the empty attribute mapping, and
hands the body on — the silently-degraded page *is* produced.  (The
return type has no error case, mirroring the `try`/`catch` at render.js
lines 89–93 which makes the function infallible.) -/
theorem C9_frontmatter_recovery_cex :
    parseYamlFrontmatter (fun _ => none) (sg "---\n: : :\n---\nBody")
      = ⟨[], sg "Body"⟩ := by
  decide

/-- **C9** (amended): a malformed frontmatter block never aborts the
build; whenever the delimiters match and the YAML loader fails, the
document is still processed, with empty attributes and the body after
the closing delimiter. -/
theorem C9_frontmatter_no_abort :
    ∀ (yamlLoad : JStr → Option Attrs) (md yamlText rest : JStr),
      fmSplit md = some (yamlText, rest) → yamlLoad yamlText = none →
      parseYamlFrontmatter yamlLoad md = ⟨[], rest⟩ := by
  intro yl md yt rest hsplit hload
  unfold parseYamlFrontmatter
  rw [hsplit]
  simp [hload]

/-- Witness for the amended C9 on a concrete malformed-YAML document. -/
theorem C9_frontmatter_witness :
    fmSplit (sg "---\n: : :\n---\nBody") = some (sg ": : :", sg "Body") ∧
    parseYamlFrontmatter (fun _ => none) (sg "---\nbad\n---\nuh")
      = ⟨[], sg "uh"⟩ :=
  ⟨by decide, C9_frontmatter_no_abort (fun _ => none) _ (sg "bad") _ (by decide) rfl⟩

/-- **C10**: rendering navigation on the very page an internal entry
points to (the entry's output path lies in the current output
directory), the relative href `index.html` normalizes to the empty
string, which is emitted verbatim in the link (`href=""`) with no `.`
substitution; the distinguished home/site-title link in the same
situation gets `.`. -/
theorem C10_nav_self_link :
    ∀ (d : List Seg) (mdP : List Seg) (title : JStr),
      toExtensionlessPath (toRelativeHref d (d ++ [indexHtmlSeg])) = [] ∧
      navLinkHtml d (NavItem.internal mdP title (d ++ [indexHtmlSeg])) =
        sg "<a href=\"" ++ sg "\" style=\"margin-right:12px;\">" ++
          escapeHtml title ++ sg "</a>" ∧
      navHomeHref d (d ++ [indexHtmlSeg]) = sg "." := by
  intro d mdP title
  have h1 : relSegs d (d ++ [indexHtmlSeg]) = [indexHtmlSeg] := relSegs_append _ _
  have h2 : toRelativeHref d (d ++ [indexHtmlSeg]) = sg "index.html" := by
    simp only [toRelativeHref, h1, joinSlash]
    rw [if_neg (by decide)]
    rfl
  have h3 : toExtensionlessPath (sg "index.html") = [] := by decide
  refine ⟨by rw [h2]; exact h3, ?_, ?_⟩
  · simp [navLinkHtml, h2, h3]
  · simp [navHomeHref, h2, h3]

/-- **C3** (counterexample): the claim gives `../c.md` as an example of a
reference *to* `a/c.md` from `a/b.md`; but references resolve against
the **source document's directory**, so `../c.md` written in `a/b.md`
designates the root-level `c.md`: its rewritten form, resolved from
`a/b/index.html`'s directory, serves `c/index.html` — not
`a/c/index.html`. -/
theorem C3_parent_ref_cex :
    processAttrValue (REPO_ROOT ++ [sg "a", sg "b.md"]) (sg "README.md") (sg "../c.md")
      = some (sg "../../c") ∧
    servedAt ((computeOutputHtmlPath (REPO_ROOT ++ [sg "a", sg "b.md"]) (sg "README.md")).dropLast)
        (sg "../../c")
      = OUTPUT_ROOT ++ [sg "c", sg "index.html"] ∧
    OUTPUT_ROOT ++ [sg "c", sg "index.html"]
      ≠ computeOutputHtmlPath (REPO_ROOT ++ [sg "a", sg "c.md"]) (sg "README.md") := by
  refine ⟨by decide, by decide, by decide⟩

/-- **C3** (amended): for a document at `a/b.md`, any plain local `.md`
reference that *resolves* to `a/c.md` (e.g. written `./c.md` or `c.md`;
`../c.md` would instead reference the root-level `c.md`) rewrites to
`../c`, and that reference, resolved from the directory of
`a/b/index.html` under the directory-index convention, designates
`a/c/index.html`, the target's output location. -/
theorem C3_link_round_trip :
    ∀ (url : JStr) (hb : Seg),
      url ≠ [] → '#' ∉ url → '?' ∉ url → '%' ∉ url →
      isAbsUrl url = false → isMailtoTel url = false →
      endsWithCI url mdExt = true →
      resolvePath (REPO_ROOT ++ [sg "a"]) url = REPO_ROOT ++ [sg "a", sg "c.md"] →
      processAttrValue (REPO_ROOT ++ [sg "a", sg "b.md"]) hb url = some (sg "../c") ∧
      servedAt ((computeOutputHtmlPath (REPO_ROOT ++ [sg "a", sg "b.md"]) hb).dropLast)
          (sg "../c")
        = computeOutputHtmlPath (REPO_ROOT ++ [sg "a", sg "c.md"]) hb := by
  intro url hb h1 h4 h5 h6 h2 h3 hmd hres
  have hsrc : computeOutputHtmlPath (REPO_ROOT ++ [sg "a", sg "b.md"]) hb
      = OUTPUT_ROOT ++ [sg "a", sg "b", sg "index.html"] := by
    have h := compute_out_nonroot [sg "a"] (sg "b.md") hb (by decide) (by decide) (by decide)
    rw [show REPO_ROOT ++ ([sg "a"] ++ [sg "b.md"]) = REPO_ROOT ++ [sg "a", sg "b.md"] from rfl]
      at h
    rw [h]
    decide
  have htgt : computeOutputHtmlPath (REPO_ROOT ++ [sg "a", sg "c.md"]) hb
      = OUTPUT_ROOT ++ [sg "a", sg "c", sg "index.html"] := by
    have h := compute_out_nonroot [sg "a"] (sg "c.md") hb (by decide) (by decide) (by decide)
    rw [show REPO_ROOT ++ ([sg "a"] ++ [sg "c.md"]) = REPO_ROOT ++ [sg "a", sg "c.md"] from rfl]
      at h
    rw [h]
    decide
  constructor
  · rw [processAttrValue_local _ _ _ h1 h2 h3 h4 h5 h6]
    congr 1
    simp only [localRewrite, hmd, if_true]
    rw [show (REPO_ROOT ++ [sg "a", sg "b.md"]).dropLast = REPO_ROOT ++ [sg "a"] from rfl,
      hres, hsrc, htgt]
    decide
  · rw [hsrc, htgt]
    decide

/-- **C7**: query and fragment are preserved in order.  If a plain local
path-part `url` (no `#`, `?` in it) rewrites to `P`, then the same
reference carrying a query `q` (starting with `?`, `#`-free) and a
fragment `h` (starting with `#`) rewrites to `P` followed by `q` then
`h` — path, then query, then fragment, all intact. -/
theorem C7_query_fragment_preserved :
    ∀ (src : List Seg) (hb : Seg) (url q h P : JStr),
      url ≠ [] → '#' ∉ url → '?' ∉ url →
      isAbsUrl url = false → isMailtoTel url = false →
      q.head? = some '?' → '#' ∉ q → h.head? = some '#' →
      isAbsUrl (url ++ q ++ h) = false → isMailtoTel (url ++ q ++ h) = false →
      processAttrValue src hb url = some P →
      processAttrValue src hb (url ++ q ++ h) = some (P ++ q ++ h) := by
  intro src hb url q h P h1 h4 h5 h2 h3 hq hqH hh h2r h3r hP
  cases q with
  | nil => simp at hq
  | cons a q' =>
    simp only [List.head?_cons, Option.some.injEq] at hq
    subst hq
    cases h with
    | nil => simp at hh
    | cons c h' =>
      simp only [List.head?_cons, Option.some.injEq] at hh
      subst hh
      have hA : '#' ∉ url ++ '?' :: q' := by
        intro hmem
        rcases List.mem_append.mp hmem with hm | hm
        · exact h4 hm
        · exact hqH hm
      have hsp1 : splitFirstKeep '#' ((url ++ '?' :: q') ++ '#' :: h')
          = (url ++ '?' :: q', '#' :: h') := splitFirstKeep_append hA
      have hsp2 : splitFirstKeep '?' (url ++ '?' :: q') = (url, '?' :: q') :=
        splitFirstKeep_append h5
      have hraw_ne : (url ++ '?' :: q') ++ '#' :: h' ≠ [] := by simp
      have hhr : ¬((url ++ '?' :: q') ++ '#' :: h').head? = some '#' := by
        cases url with
        | nil => exact absurd rfl h1
        | cons u ur =>
          simp only [List.cons_append, List.head?_cons, Option.some.injEq]
          intro hu
          exact h4 (hu ▸ List.mem_cons_self u ur)
      have hu_ne : ¬url.head? = some '#' := head?_ne_hash h4
      have hsp1u : splitFirstKeep '#' url = (url, []) := splitFirstKeep_not_mem h4
      have hsp2u : splitFirstKeep '?' url = (url, []) := splitFirstKeep_not_mem h5
      unfold processAttrValue at hP ⊢
      simp only [if_neg h1, h2, h3, Bool.false_eq_true, if_false, if_neg hu_ne,
        hsp1u, hsp2u] at hP
      simp only [if_neg hraw_ne, h2r, h3r, Bool.false_eq_true, if_false, if_neg hhr,
        hsp1, hsp2]
      cases hdec : decodeURI! url with
      | none =>
        rw [hdec] at hP
        simp at hP
      | some d =>
        rw [hdec] at hP
        simp only [List.append_nil, Option.some.injEq] at hP
        simp only [Option.some.injEq]
        rw [← hP]

/-- **C8**: a navigation key that is neither external nor a `.md` path is
resolved as a directory: `README.md` inside it wins, then `index.md`,
each resolved exactly by `resolveMdNavItem` (the Markdown-file case);
when the key is not an existing directory or neither file exists, the
entry falls back to an external entry whose href is the key verbatim. -/
theorem C8_dir_nav_resolution :
    ∀ (fs : FS) (hb : Seg) (key : JStr) (pt : Option JStr),
      isExternalKey key = false → endsWithCI key mdExt = false →
      ((fs.isDir (joinAbs REPO_ROOT (splitSlash key)) = true →
        fs.fileExists (joinAbs (joinAbs REPO_ROOT (splitSlash key)) [readmeSeg]) = true →
        buildNavItem fs hb key pt =
          resolveMdNavItem fs hb (joinAbs (joinAbs REPO_ROOT (splitSlash key)) [readmeSeg]) pt)
      ∧ (fs.isDir (joinAbs REPO_ROOT (splitSlash key)) = true →
        fs.fileExists (joinAbs (joinAbs REPO_ROOT (splitSlash key)) [readmeSeg]) = false →
        fs.fileExists (joinAbs (joinAbs REPO_ROOT (splitSlash key)) [indexMdSeg]) = true →
        buildNavItem fs hb key pt =
          resolveMdNavItem fs hb (joinAbs (joinAbs REPO_ROOT (splitSlash key)) [indexMdSeg]) pt)
      ∧ ((fs.isDir (joinAbs REPO_ROOT (splitSlash key)) = false ∨
          (fs.fileExists (joinAbs (joinAbs REPO_ROOT (splitSlash key)) [readmeSeg]) = false ∧
           fs.fileExists (joinAbs (joinAbs REPO_ROOT (splitSlash key)) [indexMdSeg]) = false)) →
        buildNavItem fs hb key pt = NavItem.external key (titleOrKey key pt))) := by
  intro fs hb key pt hext hmd
  unfold buildNavItem resolveDirKey
  simp only [hext, hmd, Bool.false_eq_true, if_false]
  refine ⟨?_, ?_, ?_⟩
  · intro hd hr
    simp [hd, hr]
  · intro hd hr hi
    simp [hd, hr, hi]
  · intro hcase
    rcases hcase with hd | ⟨hr, hi⟩
    · simp [hd]
    · by_cases hd : fs.isDir (joinAbs REPO_ROOT (splitSlash key)) <;> simp [hd, hr, hi]

/-- Witness for C8: a filesystem with directory `docs` containing only
`README.md`; the key `"docs"` resolves through it. -/
theorem C8_dir_nav_witness :
    buildNavItem
        (FS.mk (fun p => decide (p = [sg "repo", sg "docs"]))
          (fun p => decide (p = [sg "repo", sg "docs", sg "README.md"]))
          (fun _ => none))
        (sg "README.md") (sg "docs") none
      = resolveMdNavItem
          (FS.mk (fun p => decide (p = [sg "repo", sg "docs"]))
            (fun p => decide (p = [sg "repo", sg "docs", sg "README.md"]))
            (fun _ => none))
          (sg "README.md")
          (joinAbs (joinAbs REPO_ROOT (splitSlash (sg "docs"))) [readmeSeg]) none :=
  (C8_dir_nav_resolution _ _ _ _ (by decide) (by decide)).1 (by decide) (by decide)

/-- Witness for C7: `foo.md` from `a.md` rewrites to `../foo`, and
`foo.md?x=1#sec` to `../foo?x=1#sec`. -/
theorem C7_query_fragment_witness :
    processAttrValue (REPO_ROOT ++ [sg "a.md"]) (sg "README.md") (sg "foo.md")
      = some (sg "../foo") ∧
    processAttrValue (REPO_ROOT ++ [sg "a.md"]) (sg "README.md") (sg "foo.md?x=1#sec")
      = some (sg "../foo?x=1#sec") := by
  have h1 : processAttrValue (REPO_ROOT ++ [sg "a.md"]) (sg "README.md") (sg "foo.md")
      = some (sg "../foo") := by decide
  refine ⟨h1, ?_⟩
  have h2 := C7_query_fragment_preserved (REPO_ROOT ++ [sg "a.md"]) (sg "README.md")
    (sg "foo.md") (sg "?x=1") (sg "#sec") (sg "../foo")
    (by decide) (by decide) (by decide) (by decide) (by decide)
    (by decide) (by decide) (by decide) (by decide) (by decide) h1
  have e1 : sg "foo.md" ++ sg "?x=1" ++ sg "#sec" = sg "foo.md?x=1#sec" := by decide
  have e2 : sg "../foo" ++ sg "?x=1" ++ sg "#sec" = sg "../foo?x=1#sec" := by decide
  rw [e1, e2] at h2
  exact h2

theorem endsWithCI_append_self (A suf : JStr) : endsWithCI (A ++ suf) suf = true := by
  rw [endsWithCI_iff, lowerStr_append]
  exact List.suffix_append _ _

theorem dropRightN_append (A B : JStr) : dropRightN (A ++ B) B.length = A := by
  unfold dropRightN
  rw [List.length_append, Nat.add_sub_cancel]
  exact List.take_left _ _

theorem endsWithCI_of_ih {p : JStr} (h : endsWithCI p (sg "index.html") = true) :
    endsWithCI p htmlExt = true := by
  rw [endsWithCI_iff] at h ⊢
  exact List.IsSuffix.trans (by decide) h

theorem joinSlash_replicate_ne_nil {k : Nat} (hk : k ≠ 0) :
    joinSlash (List.replicate k dotdotSeg) ≠ [] := by
  cases k with
  | zero => exact absurd rfl hk
  | succ n =>
    cases n with
    | zero => simp [List.replicate, joinSlash, dotdotSeg]
    | succ m => simp [List.replicate, joinSlash, dotdotSeg]

theorem extensionless_result_no_html (sOut T : List Seg) (hb : Seg)
    (hname : endsWithCI ((computeOutputHtmlPath T hb).dropLast.getLastD []) htmlExt
      = false) :
    endsWithCI
      (if toExtensionlessPath (toRelativeHref sOut (computeOutputHtmlPath T hb)) = []
       then sg "."
       else toExtensionlessPath (toRelativeHref sOut (computeOutputHtmlPath T hb)))
      htmlExt = false := by
  by_cases he : toExtensionlessPath (toRelativeHref sOut (computeOutputHtmlPath T hb)) = []
  · rw [if_pos he]
    decide
  · rw [if_neg he]
    obtain ⟨k, m, hrel, hsuf⟩ := relSegs_structure sOut (computeOutputHtmlPath T hb)
    rw [computeOutputHtmlPath_shape T hb] at hsuf
    by_cases hm : m = []
    · subst hm
      rw [List.append_nil] at hrel
      by_cases hk : k = 0
      · subst hk
        simp only [List.replicate] at hrel
        have hrh : toRelativeHref sOut (computeOutputHtmlPath T hb) = sg "index.html" := by
          simp [toRelativeHref, hrel, joinSlash]
        rw [hrh]
        decide
      · have hrh : toRelativeHref sOut (computeOutputHtmlPath T hb)
            = joinSlash (List.replicate k dotdotSeg) := by
          simp only [toRelativeHref, hrel]
          rw [if_neg (joinSlash_replicate_ne_nil hk)]
        rw [hrh, toExtensionlessPath_dots]
        exact dots_not_endsWith (by decide : ('h' : Char) ∈ lowerStr htmlExt)
          (by decide) (by decide)
    · obtain ⟨m', hm'eq, hm'suf⟩ := suffix_concat_decompose hsuf hm
      subst hm'eq
      rw [← List.append_assoc] at hrel
      by_cases hKnil : List.replicate k dotdotSeg ++ m' = []
      · rw [hKnil, List.nil_append] at hrel
        have hrh : toRelativeHref sOut (computeOutputHtmlPath T hb) = sg "index.html" := by
          simp only [toRelativeHref, hrel, joinSlash]
          rw [if_neg (by decide)]
          rfl
        rw [hrh]
        decide
      · have hjoin : joinSlash ((List.replicate k dotdotSeg ++ m') ++ [indexHtmlSeg])
            = joinSlash (List.replicate k dotdotSeg ++ m') ++ sg "/index.html" := by
          rw [joinSlash_append_last, if_neg hKnil]
          rfl
        have hrh : toRelativeHref sOut (computeOutputHtmlPath T hb)
            = joinSlash (List.replicate k dotdotSeg ++ m') ++ sg "/index.html" := by
          simp only [toRelativeHref, hrel, hjoin]
          rw [if_neg (fun hcon => by
            rw [List.append_eq_nil] at hcon
            exact absurd hcon.2 (by decide))]
        have hstep1 : endsWithCI
            (joinSlash (List.replicate k dotdotSeg ++ m') ++ sg "/index.html")
            (sg "/index.html") = true := endsWithCI_append_self _ _
        have hdrop : dropRightN
            (joinSlash (List.replicate k dotdotSeg ++ m') ++ sg "/index.html") 11
            = joinSlash (List.replicate k dotdotSeg ++ m') := by
          have hlen : (sg "/index.html").length = 11 := by decide
          rw [← hlen]
          exact dropRightN_append _ _
        have hKhtml : endsWithCI (joinSlash (List.replicate k dotdotSeg ++ m')) htmlExt
            = false := by
          by_cases hm'nil : m' = []
          · rw [hm'nil, List.append_nil]
            exact dots_not_endsWith (by decide : ('h' : Char) ∈ lowerStr htmlExt)
              (by decide) (by decide)
          · by_contra hcon
            have htrue : endsWithCI (joinSlash (List.replicate k dotdotSeg ++ m')) htmlExt
                = true := by
              revert hcon
              cases endsWithCI (joinSlash (List.replicate k dotdotSeg ++ m')) htmlExt <;> simp
            have hlast := endsWithCI_joinSlash (by decide) htrue
            have hgl1 : (List.replicate k dotdotSeg ++ m').getLastD [] = m'.getLastD [] := by
              simp only [List.getLastD_eq_getLast?]
              rw [List.getLast?_append_of_ne_nil _ hm'nil]
            have hgl2 : m'.getLastD []
                = ((computeOutputHtmlPath T hb).dropLast).getLastD [] :=
              suffix_getLastD hm'suf hm'nil
            rw [hgl1, hgl2, hname] at hlast
            exact Bool.false_ne_true hlast
        have hres : toExtensionlessPath (toRelativeHref sOut (computeOutputHtmlPath T hb))
            = joinSlash (List.replicate k dotdotSeg ++ m') := by
          rw [hrh]
          simp only [toExtensionlessPath, hstep1, if_true, hdrop, hKhtml,
            Bool.false_eq_true, if_false]
        rw [hres]
        exact hKhtml

/-- **C6** (counterexample): the source file `index.html.html.md` refutes
the claim as stated: linked from `b.md`, its rewritten reference is
`../index.html`, which ends in both `index.html` and `.html` even though
the original reference was to a Markdown file — the stripped name
`index.html.html` itself ends in `.html`, and the two trimming rules
remove only one layer. -/
theorem C6_html_suffix_cex :
    processAttrValue (REPO_ROOT ++ [sg "b.md"]) (sg "README.md") (sg "index.html.html.md")
      = some (sg "../index.html") ∧
    endsWithCI (sg "../index.html") (sg "index.html") = true ∧
    endsWithCI (sg "../index.html") htmlExt = true := by
  refine ⟨by decide, by decide, by decide⟩

/-- **C6** (amended): for a plain local Markdown reference, the
rewritten path never ends in `index.html` or `.html` **provided** the
final segment of the target's output directory (the stripped target
filename, or the enclosing directory when that is empty or a dot
segment) does not itself end in `.html`; a reference whose stripped
path empties entirely gets the current-directory marker `.`; and
non-Markdown asset references are emitted as the raw relativized path,
with no extensionless trimming applied. -/
theorem C6_extensionless :
    (∀ (src : List Seg) (hb : Seg) (url : JStr),
      url ≠ [] → '#' ∉ url → '?' ∉ url → '%' ∉ url →
      isAbsUrl url = false → isMailtoTel url = false →
      endsWithCI url mdExt = true →
      endsWithCI
        ((computeOutputHtmlPath (resolvePath src.dropLast url) hb).dropLast.getLastD [])
        htmlExt = false →
      (processAttrValue src hb url).isSome = true ∧
      endsWithCI ((processAttrValue src hb url).getD []) htmlExt = false ∧
      endsWithCI ((processAttrValue src hb url).getD []) (sg "index.html") = false)
    ∧ (∀ (src : List Seg) (hb : Seg) (url : JStr),
      url ≠ [] → '#' ∉ url → '?' ∉ url → '%' ∉ url →
      isAbsUrl url = false → isMailtoTel url = false →
      endsWithCI url mdExt = false →
      processAttrValue src hb url =
        some (toRelativeHref (computeOutputHtmlPath src hb).dropLast
          (joinAbs OUTPUT_ROOT (relSegs REPO_ROOT (resolvePath src.dropLast url)))))
    ∧ processAttrValue (REPO_ROOT ++ [sg "a", sg "x.md"]) (sg "README.md") (sg "x.md")
        = some (sg ".") := by
  refine ⟨?_, ?_, by decide⟩
  · intro src hb url h1 h4 h5 h6 h2 h3 hmd hname
    have hloc := processAttrValue_local src hb url h1 h2 h3 h4 h5 h6
    have hfalse : endsWithCI (localRewrite src hb url) htmlExt = false := by
      simp only [localRewrite, hmd, if_true]
      exact extensionless_result_no_html _ _ _ hname
    refine ⟨by rw [hloc]; rfl, by rw [hloc]; simpa using hfalse, ?_⟩
    rw [hloc]
    simp only [Option.getD_some]
    by_contra hcon
    have htrue : endsWithCI (localRewrite src hb url) (sg "index.html") = true := by
      revert hcon
      cases endsWithCI (localRewrite src hb url) (sg "index.html") <;> simp
    have hres := endsWithCI_of_ih htrue
    rw [hfalse] at hres
    exact Bool.false_ne_true hres
  · intro src hb url h1 h4 h5 h6 h2 h3 hmd
    rw [processAttrValue_local src hb url h1 h2 h3 h4 h5 h6]
    congr 1
    simp only [localRewrite, hmd, Bool.false_eq_true, if_false]

/-- Witness for the amended C6: the Markdown reference `docs/guide.md`
from `x.md` and the asset reference `logo.svg`. -/
theorem C6_extensionless_witness :
    ((processAttrValue (REPO_ROOT ++ [sg "x.md"]) (sg "README.md") (sg "docs/guide.md")).isSome
        = true ∧
      endsWithCI
        ((processAttrValue (REPO_ROOT ++ [sg "x.md"]) (sg "README.md")
          (sg "docs/guide.md")).getD []) htmlExt = false ∧
      endsWithCI
        ((processAttrValue (REPO_ROOT ++ [sg "x.md"]) (sg "README.md")
          (sg "docs/guide.md")).getD []) (sg "index.html") = false) ∧
    processAttrValue (REPO_ROOT ++ [sg "x.md"]) (sg "README.md") (sg "logo.svg")
      = some (toRelativeHref
          (computeOutputHtmlPath (REPO_ROOT ++ [sg "x.md"]) (sg "README.md")).dropLast
          (joinAbs OUTPUT_ROOT (relSegs REPO_ROOT
            (resolvePath (REPO_ROOT ++ [sg "x.md"]).dropLast (sg "logo.svg"))))) :=
  ⟨C6_extensionless.1 (REPO_ROOT ++ [sg "x.md"]) (sg "README.md") (sg "docs/guide.md")
      (by decide) (by decide) (by decide) (by decide) (by decide) (by decide)
      (by decide) (by decide),
   C6_extensionless.2.1 (REPO_ROOT ++ [sg "x.md"]) (sg "README.md") (sg "logo.svg")
      (by decide) (by decide) (by decide) (by decide) (by decide) (by decide) (by decide)⟩

/-- Witness for the amended C3 at the reference `./c.md`. -/
theorem C3_link_round_trip_witness :
    processAttrValue (REPO_ROOT ++ [sg "a", sg "b.md"]) (sg "README.md") (sg "./c.md")
      = some (sg "../c") ∧
    servedAt ((computeOutputHtmlPath (REPO_ROOT ++ [sg "a", sg "b.md"])
        (sg "README.md")).dropLast) (sg "../c")
      = computeOutputHtmlPath (REPO_ROOT ++ [sg "a", sg "c.md"]) (sg "README.md") :=
  C3_link_round_trip (sg "./c.md") (sg "README.md") (by decide) (by decide) (by decide)
    (by decide) (by decide) (by decide) (by decide) (by decide)

/-- Witness for the amended C4 at a reference with a well-formed
percent-escape. -/
theorem C4_rewrite_total_witness :
    (processAttrValue (REPO_ROOT ++ [sg "d.md"]) (sg "README.md") (sg "a%20b.md")).isSome
      = true :=
  C4_rewrite_total.1 (REPO_ROOT ++ [sg "d.md"]) (sg "README.md") (sg "a%20b.md") (by decide)
